import Mathlib

/-!
Shallow embedding of the koexist-server real-time relay (src/server.js and
src/unnamed/part_000).  The two files share the connection registry, the
message routing and the presence logic verbatim; part_000 additionally has the
FCM token map, the /api/save-token endpoint and the new-message handler with
Pusher/FCM dispatch.  We model:

* the `activeUsers` JS Map as an insertion-ordered association list with JS
  `Map.set` semantics (overwrite in place, append when fresh);
* socket.io room membership as a set of (socket, room) pairs; `socket.join`
  is idempotent, `socket.to(room).emit` fans out to every member of the room
  except the sender (membership of the sender is NOT required);
* client-supplied JS values loosely: a registered identity is either a
  nullish value (property access throws) or an object with optional `uid`
  and `displayName` fields; an event payload is either nullish (parameter
  destructuring throws before the handler body's try/catch) or an object
  whose destructured fields are present-or-undefined (`Option`);
* each socket handler as a function from state and payload to a
  `HandlerResult`: either `ok` with the new state and the list of concrete
  deliveries (target socket, event), or `uncaughtError` when an exception
  escapes the handler (only possible in parameter destructuring, which runs
  before the body's try block).
-/

namespace Koexist

/-- Socket ids are opaque process-unique handles. -/
abbrev SocketId := Nat

/-- A client-supplied identity value stored verbatim by `user:join`:
`jnull` is a nullish JS value (accessing `.uid` on it throws),
`jobj uid displayName` is an object whose fields may be missing. -/
inductive JsUser where
  | jnull
  | jobj (uid : Option String) (displayName : Option String)
deriving DecidableEq, Repr

/-- Reading `user.uid` in JS: throws on a nullish value, otherwise yields
the field's value (or `undefined`, modelled as `none`). -/
def JsUser.uidOf : JsUser → Except Unit (Option String)
  | .jnull => .error ()
  | .jobj uid _ => .ok uid

/-- JS `Map.set k v`: overwrite in place when the key is present (keeping
its insertion position), append otherwise. -/
def mapSet {K V : Type} [DecidableEq K] : List (K × V) → K → V → List (K × V)
  | [], k, v => [(k, v)]
  | p :: rest, k, v =>
      if p.1 = k then (k, v) :: rest else p :: mapSet rest k v

/-- JS `Map.get k`: the value at the first entry with key `k`, if any. -/
def mapGet {K V : Type} [DecidableEq K] : List (K × V) → K → Option V
  | [], _ => none
  | p :: rest, k => if p.1 = k then some p.2 else mapGet rest k

/-- JS `Map.delete k`: drop the entries at `k`. -/
def mapDelete {K V : Type} [DecidableEq K] : List (K × V) → K → List (K × V)
  | [], _ => []
  | p :: rest, k =>
      if p.1 = k then mapDelete rest k else p :: mapDelete rest k

/-- JS `Array.from(m.values())`: the values in insertion order. -/
def mapValues {K V : Type} (m : List (K × V)) : List V := m.map (·.2)

/-- The mutable server state: connected sockets, the `activeUsers` registry
(insertion-ordered Map from socket id to the verbatim `user:join` payload),
socket.io room membership, and part_000's `userTokens` FCM token Map (keys
and values come from an unvalidated JSON body, hence `Option String`). -/
structure ServerState where
  connected : List SocketId
  activeUsers : List (SocketId × JsUser)
  rooms : List (SocketId × Option String)
  userTokens : List (Option String × Option String)
deriving DecidableEq, Repr

/-- Payload of part_000's `new-message` event, as the handler reads it:
`data.text`, `data.sender` (`.uid`/`.displayName` are read, so a nullish
sender throws inside the try), `data.chatId`, `data.recipientId`. -/
structure NewMsgData where
  text : Option String
  sender : JsUser
  chatId : Option String
  recipientId : Option String
deriving DecidableEq, Repr

/-- Events the server emits to a socket. -/
inductive EventOut where
  | usersActive (users : List JsUser)
  | messageReceive (sender : Option JsUser) (message : Option String)
      (chat : Option (Option String))
  | typingUpdate (user : Option String) (isTyping : Bool)
  | messageReceived (data : NewMsgData)
deriving DecidableEq, Repr

/-- One concrete delivery: target socket and event. -/
abbrev Delivery := SocketId × EventOut

/-- Outcome of running one socket handler: `ok` with the new state and the
deliveries performed, or `uncaughtError` when an exception escapes the
handler (parameter destructuring of a nullish payload happens before the
body's try/catch, so nothing is caught and the state is untouched). -/
inductive HandlerResult where
  | ok (state : ServerState) (sent : List Delivery)
  | uncaughtError (state : ServerState)
deriving DecidableEq, Repr

/-- The deliveries a handler run performed. -/
def HandlerResult.sentOf : HandlerResult → List Delivery
  | .ok _ sent => sent
  | .uncaughtError _ => []

/-- Members of a room, in join order (socket.io room = set of sockets). -/
def roomMembers (s : ServerState) (room : Option String) : List SocketId :=
  (s.rooms.filter (fun p => decide (p.2 = room))).map (·.1)

/-- `socket.to(room).emit(ev)`: deliver `ev` to every member of `room`
except the sender; the sender's own membership is irrelevant. -/
def fanOut (s : ServerState) (sender : SocketId) (room : Option String)
    (ev : EventOut) : List Delivery :=
  ((roomMembers s room).filter (fun t => decide (t ≠ sender))).map
    (fun t => (t, ev))

/-- `io.emit(ev)`: deliver to every connected socket. -/
def broadcastAll (s : ServerState) (ev : EventOut) : List Delivery :=
  s.connected.map (fun t => (t, ev))

/-- `user:join` handler (src/server.js:158, part_000:197): stores the
payload verbatim in `activeUsers` and broadcasts the full presence snapshot
`users:active` to all connections.  No destructuring, so no payload value
can throw before the try block; the body cannot throw. -/
def userJoin (s : ServerState) (sid : SocketId) (userData : JsUser) :
    HandlerResult :=
  let s' := { s with activeUsers := mapSet s.activeUsers sid userData }
  .ok s' (broadcastAll s' (.usersActive (mapValues s'.activeUsers)))

/-- The linear scan of `message:private` (src/server.js:174, part_000:213):
`Array.from(activeUsers.entries()).find(([_, user]) => user.uid === to)?.[0]`.
Returns `.error` when the find callback throws (a nullish stored identity),
otherwise the first socket whose identity's `uid` field equals `to`
(JS `===`: `undefined === undefined` is true, `undefined === "x"` false). -/
def findRecipient : List (SocketId × JsUser) → Option String →
    Except Unit (Option SocketId)
  | [], _ => .ok none
  | (_, .jnull) :: _, _ => .error ()
  | (sid, .jobj uid _) :: rest, tgt =>
      if uid = tgt then .ok (some sid) else findRecipient rest tgt

/-- `message:private` handler (src/server.js:171, part_000:210).  Payload
`none` models a nullish value: destructuring `(\x7b to, message \x7d)` throws
before the try block, so the exception escapes uncaught.  Otherwise the body
scans the registry for the first identity with the target uid; a scan
exception is caught and logged; on a hit, `io.to(recipientSocket)` delivers
`message:receive` with `from` read from the registry under the SENDER's own
socket id; on a miss nothing is emitted. -/
def privateMessage (s : ServerState) (sid : SocketId)
    (payload : Option (Option String × Option String)) : HandlerResult :=
  match payload with
  | none => .uncaughtError s
  | some (tgt, message) =>
    match findRecipient s.activeUsers tgt with
    | .error _ => .ok s []
    | .ok none => .ok s []
    | .ok (some recipientSocket) =>
        .ok s (if recipientSocket ∈ s.connected then
          [(recipientSocket,
            .messageReceive (mapGet s.activeUsers sid) message none)]
        else [])

/-- `message:group` handler (src/server.js:192, part_000:231).  Payload
`none` models a nullish value (destructuring throws uncaught).  Otherwise
`socket.to(chatId).emit('message:receive', ...)` fans out to every member
of the room except the sender, with `from` read from the registry under the
sender's socket id and the `chatId` field attached; the body cannot throw. -/
def groupMessage (s : ServerState) (sid : SocketId)
    (payload : Option (Option String × Option String)) : HandlerResult :=
  match payload with
  | none => .uncaughtError s
  | some (chatId, message) =>
      .ok s (fanOut s sid chatId
        (.messageReceive (mapGet s.activeUsers sid) message (some chatId)))

/-- `chat:join` handler (src/server.js:207, part_000:246): `socket.join(chatId)`,
idempotent; the payload is used verbatim as the room key (no destructuring). -/
def chatJoin (s : ServerState) (sid : SocketId) (chatId : Option String) :
    HandlerResult :=
  if (sid, chatId) ∈ s.rooms then .ok s []
  else .ok { s with rooms := s.rooms ++ [(sid, chatId)] } []

/-- `typing:start` handler (src/server.js:218, part_000:257): relays the
client-supplied `user` field verbatim in a `typing:update` with
`isTyping: true` to the room, sender excluded; never reads the registry. -/
def typingStart (s : ServerState) (sid : SocketId)
    (payload : Option (Option String × Option String)) : HandlerResult :=
  match payload with
  | none => .uncaughtError s
  | some (chatId, user) => .ok s (fanOut s sid chatId (.typingUpdate user true))

/-- `typing:stop` handler (src/server.js:226, part_000:265): as
`typing:start` with `isTyping: false`. -/
def typingStop (s : ServerState) (sid : SocketId)
    (payload : Option (Option String × Option String)) : HandlerResult :=
  match payload with
  | none => .uncaughtError s
  | some (chatId, user) => .ok s (fanOut s sid chatId (.typingUpdate user false))

/-- `disconnect` handler (src/server.js:240, part_000:332): deletes the
registry entry for the disconnecting socket and broadcasts the presence
snapshot.  It touches nothing else: rooms, tokens and the connected list are
left to the transport layer. -/
def disconnectHandler (s : ServerState) (sid : SocketId) :
    ServerState × List Delivery :=
  let s' := { s with activeUsers := mapDelete s.activeUsers sid }
  (s', broadcastAll s' (.usersActive (mapValues s'.activeUsers)))

/-- `/api/save-token` (part_000:104): `userTokens.set(userId, token)` with
the unvalidated JSON body fields. -/
def saveToken (s : ServerState) (userId token : Option String) : ServerState :=
  { s with userTokens := mapSet s.userTokens userId token }

/-- `new-message` handler (part_000:343).  The async body first `await`s
`pusher.trigger` (reading `data.text` and `data.sender.uid`, so a nullish
`data` or `data.sender` throws inside the try and is caught), then looks up
the recipient's FCM token and, when present, `await`s the FCM send inside an
INNER try whose failure is only logged, and finally
`socket.broadcast.emit('message-received', data)` to every other connected
socket.  `pusherOk`/`fcmOk` say whether the respective awaited dispatch
succeeds; a pusher rejection is caught by the OUTER catch, so the broadcast
on the last line is skipped. -/
def newMessage (s : ServerState) (sid : SocketId) (data : Option NewMsgData)
    (pusherOk _fcmOk : Bool) : ServerState × List Delivery :=
  match data with
  | none => (s, [])
  | some d =>
    match d.sender with
    | .jnull => (s, [])
    | .jobj _ _ =>
      if pusherOk then
        (s, (s.connected.filter (fun t => decide (t ≠ sid))).map
          (fun t => (t, .messageReceived d)))
      else (s, [])

/-! ### Join/disconnect traces for the presence invariant -/

/-- A registry-affecting event: a `user:join` from a socket, or its
disconnect. -/
inductive Ev where
  | join (sid : SocketId) (u : JsUser)
  | disc (sid : SocketId)
deriving DecidableEq, Repr

/-- Effect of one event on the `activeUsers` Map (the registry part of
`userJoin` and `disconnectHandler`). -/
def applyEv (m : List (SocketId × JsUser)) : Ev → List (SocketId × JsUser)
  | .join sid u => mapSet m sid u
  | .disc sid => mapDelete m sid

/-- The registry after a trace of joins and disconnects, from empty. -/
def runReg (tr : List Ev) : List (SocketId × JsUser) :=
  tr.foldl applyEv []

/-- The socket ids of the joins in a trace, in order, with repetitions. -/
def joinSids (tr : List Ev) : List SocketId :=
  tr.filterMap (fun e => match e with | .join sid _ => some sid | .disc _ => none)

/-- Keep the first occurrence of each element, in order. -/
def dedupFirst : List SocketId → List SocketId
  | [] => []
  | a :: rest => a :: (dedupFirst rest).filter (fun x => decide (x ≠ a))

/-- Whether the trace disconnects `sid`. -/
def hasDisc (tr : List Ev) (sid : SocketId) : Bool :=
  tr.any (fun e => match e with | .disc s => decide (s = sid) | .join _ _ => false)

/-- The identity supplied by the LAST `user:join` of `sid` in the trace. -/
def lastJoin (tr : List Ev) (sid : SocketId) : Option JsUser :=
  tr.foldl (fun acc e => match e with
    | .join s u => if s = sid then some u else acc
    | .disc _ => acc) none

/-- The spec-side registry entry of one connection: present iff it was not
disconnected, carrying the identity of its last join. -/
def entryFor (tr : List Ev) (sid : SocketId) : Option (SocketId × JsUser) :=
  if hasDisc tr sid then none else (lastJoin tr sid).map (fun u => (sid, u))

/-- Spec-side registry: the connections that joined and were not
disconnected, in original join order, each carrying the identity of its last
join (duplicated identities across distinct connections included). -/
def refRegistry (tr : List Ev) : List (SocketId × JsUser) :=
  (dedupFirst (joinSids tr)).filterMap (entryFor tr)

/-- A connection is destroyed by its disconnect: no later `user:join` from
the same socket id occurs (socket ids are process-unique per connection). -/
def noJoinAfterDisc : List Ev → Bool
  | [] => true
  | .disc sid :: rest =>
      !(rest.any (fun e => match e with
        | .join s _ => decide (s = sid) | .disc _ => false)) && noJoinAfterDisc rest
  | .join _ _ :: rest => noJoinAfterDisc rest

/-- Every disconnect is matched by a prior join of the same connection. -/
def matchedAux (joined : List SocketId) : List Ev → Bool
  | [] => true
  | .join sid _ :: rest => matchedAux (sid :: joined) rest
  | .disc sid :: rest => decide (sid ∈ joined) && matchedAux joined rest

def matchedDiscs (tr : List Ev) : Bool := matchedAux [] tr

/-! ### Helper predicates and lemmas -/

/-- Whether a stored identity value is an object whose `uid` field equals
the given uid (the find callback's `user.uid === to` returning true without
throwing). -/
def matchesUid (u : JsUser) (uid : String) : Bool :=
  match u with
  | .jnull => false
  | .jobj x _ => x = some uid

/-- The scan `find(([_, user]) => user.uid === to)` returns the first
matching entry: entries before it that are objects and do not match are
skipped. -/
theorem findRecipient_append_first (pre post : List (SocketId × JsUser))
    (r : SocketId) (uid : String) (dn : Option String)
    (hpre : ∀ p ∈ pre, p.2 ≠ .jnull ∧ matchesUid p.2 uid = false) :
    findRecipient (pre ++ (r, .jobj (some uid) dn) :: post) (some uid) =
      .ok (some r) := by
  induction pre with
  | nil => simp [findRecipient]
  | cons p rest ih =>
    obtain ⟨psid, pu⟩ := p
    cases pu with
    | jnull =>
      exact absurd rfl (hpre (psid, .jnull) (List.mem_cons_self _ _)).1
    | jobj u d =>
      have hu : u ≠ some uid := by
        have := (hpre (psid, .jobj u d) (List.mem_cons_self _ _)).2
        simpa [matchesUid] using this
      rw [List.cons_append, findRecipient, if_neg hu]
      exact ih (fun q hq => hpre q (List.mem_cons_of_mem _ hq))

/-- When no stored identity is an object with the target uid, the scan never
yields a recipient (it either throws on a nullish identity or misses). -/
theorem findRecipient_no_match (m : List (SocketId × JsUser)) (uid : String)
    (h : ∀ p ∈ m, matchesUid p.2 uid = false) :
    findRecipient m (some uid) = .error () ∨
      findRecipient m (some uid) = .ok none := by
  induction m with
  | nil => right; rfl
  | cons p rest ih =>
    obtain ⟨psid, pu⟩ := p
    cases pu with
    | jnull => left; rfl
    | jobj u d =>
      have hu : u ≠ some uid := by
        have := h (psid, .jobj u d) (List.mem_cons_self _ _)
        simpa [matchesUid] using this
      rw [findRecipient, if_neg hu]
      exact ih (fun q hq => h q (List.mem_cons_of_mem _ hq))

/-! ### Map lemmas -/

theorem mapGet_mapSet {K V : Type} [DecidableEq K] (m : List (K × V)) (k : K)
    (v : V) : mapGet (mapSet m k v) k = some v := by
  induction m with
  | nil => simp [mapSet, mapGet]
  | cons p rest ih =>
    by_cases hp : p.1 = k
    · simp [mapSet, mapGet, hp]
    · simp [mapSet, mapGet, hp, ih]

/-! ### Concrete states used as witnesses and counterexamples -/

/-- Two live connections (1 and 2) have both registered uid `a`; socket 3 is
connected but never sent `user:join`; sockets 2 and 3 are members of room
`r`; socket 1 is not. -/
def stA : ServerState :=
  { connected := [1, 2, 3]
    activeUsers := [(1, .jobj (some "a") (some "Ann")),
                    (2, .jobj (some "a") (some "Ann2"))]
    rooms := [(2, some "r"), (3, some "r")]
    userTokens := [] }

/-- Payload and state for the `new-message` dispatch analysis. -/
def nmData : NewMsgData :=
  { text := some "hi", sender := .jobj (some "a") (some "Ann")
    chatId := some "c1", recipientId := some "b" }

def nmState : ServerState :=
  { connected := [1, 2], activeUsers := [], rooms := [], userTokens := [] }

/-! ### Claims -/

/-- C1: resolving a private-message recipient is a linear scan of the
registry in insertion order returning the first entry whose identity's uid
equals the target; with two live connections registered under the same uid a
private message is delivered only to the first-registered one. -/
theorem private_first_match (s : ServerState) (sid r : SocketId) (uid : String)
    (msg dn : Option String) (pre post : List (SocketId × JsUser))
    (hsplit : s.activeUsers = pre ++ (r, .jobj (some uid) dn) :: post)
    (hpre : ∀ p ∈ pre, p.2 ≠ .jnull ∧ matchesUid p.2 uid = false)
    (hconn : r ∈ s.connected) :
    findRecipient s.activeUsers (some uid) = .ok (some r) ∧
    privateMessage s sid (some (some uid, msg)) =
      .ok s [(r, .messageReceive (mapGet s.activeUsers sid) msg none)] := by
  have hfind : findRecipient s.activeUsers (some uid) = .ok (some r) := by
    rw [hsplit]
    exact findRecipient_append_first pre post r uid dn hpre
  refine ⟨hfind, ?_⟩
  simp [privateMessage, hfind, hconn]

/-- Witness for C1 at `stA`: connections 1 and 2 both registered uid `a`;
the message from socket 3 goes to connection 1 only, which registered
first. -/
theorem private_first_match_witness :
    findRecipient stA.activeUsers (some "a") = .ok (some 1) ∧
    privateMessage stA 3 (some (some "a", some "hi")) =
      .ok stA [(1, .messageReceive (mapGet stA.activeUsers 3) (some "hi")
        none)] :=
  private_first_match stA 3 1 "a" (some "hi") (some "Ann") []
    [(2, .jobj (some "a") (some "Ann2"))] rfl (by decide) (by decide)

/-- C2: a group message fans out exactly to the other current members of the
room — every other member, no non-member, not the sender — and the delivered
`from` field is the sender's registered identity read from the registry
under the sender's own socket id (the destructuring ignores any
client-supplied `from`). -/
theorem group_fanout_members (s : ServerState) (sid : SocketId) (R : String)
    (msg : Option String) (hmem : (sid, some R) ∈ s.rooms) :
    groupMessage s sid (some (some R, msg)) =
      .ok s (fanOut s sid (some R)
        (.messageReceive (mapGet s.activeUsers sid) msg (some (some R)))) ∧
    ∀ t ev, (t, ev) ∈ (groupMessage s sid (some (some R, msg))).sentOf ↔
      (t ∈ roomMembers s (some R) ∧ t ≠ sid ∧
        ev = .messageReceive (mapGet s.activeUsers sid) msg (some (some R))) := by
  refine ⟨rfl, fun t ev => ?_⟩
  simp only [groupMessage, HandlerResult.sentOf, fanOut, List.mem_map,
    List.mem_filter, decide_eq_true_eq, Prod.mk.injEq]
  constructor
  · rintro ⟨t', ⟨hmem', hne⟩, rfl, rfl⟩
    exact ⟨hmem', hne, rfl⟩
  · rintro ⟨hmem', hne, rfl⟩
    exact ⟨t, ⟨hmem', hne⟩, rfl, rfl⟩

/-- Witness for C2 at `stA`: socket 2 (a member of room `r`) sends a group
message; it is delivered exactly to socket 3, the only other member, with
`from` equal to 2's registered identity. -/
theorem group_fanout_members_witness :
    groupMessage stA 2 (some (some "r", some "yo")) =
      .ok stA (fanOut stA 2 (some "r")
        (.messageReceive (mapGet stA.activeUsers 2) (some "yo")
          (some (some "r")))) ∧
    ∀ t ev, (t, ev) ∈ (groupMessage stA 2 (some (some "r", some "yo"))).sentOf ↔
      (t ∈ roomMembers stA (some "r") ∧ t ≠ 2 ∧
        ev = .messageReceive (mapGet stA.activeUsers 2) (some "yo")
          (some (some "r"))) :=
  group_fanout_members stA 2 "r" (some "yo") (by decide)

/-- C3 counterexample: socket 1 is NOT a member of room `r`, yet its group
message to `r` is delivered to socket 2 (the room's member) — the claim that
a non-member's group send delivers to nobody is false. -/
theorem group_nonmember_delivers :
    (1, some "r") ∉ stA.rooms ∧
    (groupMessage stA 1 (some (some "r", some "hi"))).sentOf =
      [(2, .messageReceive (some (.jobj (some "a") (some "Ann")))
          (some "hi") (some (some "r"))),
       (3, .messageReceive (some (.jobj (some "a") (some "Ann")))
          (some "hi") (some (some "r")))] ∧
    (groupMessage stA 1 (some (some "r", some "hi"))).sentOf ≠ [] := by
  refine ⟨by decide, by decide, by decide⟩

/-- C3 amended: `socket.to(chatId)` does not consult the sender's
membership — a group message from a non-member is still delivered to every
current member of the room (sender excluded as always), with no error; it
delivers to nobody exactly when the room has no other members. -/
theorem group_nonmember_still_fans_out (s : ServerState) (sid : SocketId)
    (chatId msg : Option String) (hnm : (sid, chatId) ∉ s.rooms) :
    groupMessage s sid (some (chatId, msg)) =
      .ok s (fanOut s sid chatId
        (.messageReceive (mapGet s.activeUsers sid) msg (some chatId))) ∧
    (roomMembers s chatId = [] →
      (groupMessage s sid (some (chatId, msg))).sentOf = []) := by
  refine ⟨rfl, fun hempty => ?_⟩
  simp [groupMessage, HandlerResult.sentOf, fanOut, hempty]

/-- Witness for the amended C3 at `stA`: non-member socket 1 sends to room
`r`; the hypothesis holds and the fan-out is as stated. -/
theorem group_nonmember_still_fans_out_witness :
    groupMessage stA 1 (some (some "r", some "hi")) =
      .ok stA (fanOut stA 1 (some "r")
        (.messageReceive (mapGet stA.activeUsers 1) (some "hi")
          (some (some "r")))) ∧
    (roomMembers stA (some "r") = [] →
      (groupMessage stA 1 (some (some "r", some "hi"))).sentOf = []) :=
  group_nonmember_still_fans_out stA 1 (some "r") (some "hi") (by decide)

/-- C4: the `new-message` handler `await`s `pusher.trigger` BEFORE the
`socket.broadcast.emit` on its last line, and a Pusher rejection is caught
by the outer catch, skipping the broadcast: delivery to live connections is
blocked on — and prevented by — notification dispatch failure.  (An FCM
failure, by contrast, is caught by the inner try and does not prevent the
broadcast.)  Evaluated at a concrete input, contradicting the claim. -/
theorem newMessage_blocked_by_pusher_failure :
    newMessage nmState 1 (some nmData) false true = (nmState, []) ∧
    newMessage nmState 1 (some nmData) true false =
      (nmState, [(2, .messageReceived nmData)]) ∧
    (newMessage nmState 1 (some nmData) false true).2 ≠
      (newMessage nmState 1 (some nmData) true true).2 := by
  refine ⟨by decide, by decide, by decide⟩

/-- C6: a private message whose target uid matches no currently registered
identity is silently dropped: the handler returns with no event emitted to
any connection (sender included) and the state unchanged. -/
theorem private_no_match_dropped (s : ServerState) (sid : SocketId)
    (uid : String) (msg : Option String)
    (hnomatch : ∀ p ∈ s.activeUsers, matchesUid p.2 uid = false) :
    privateMessage s sid (some (some uid, msg)) = .ok s [] := by
  rcases findRecipient_no_match s.activeUsers uid hnomatch with h | h <;>
    simp [privateMessage, h]

/-- Witness for C6 at `stA`: no registered identity has uid `z`; the message
is dropped with nothing emitted. -/
theorem private_no_match_dropped_witness :
    privateMessage stA 1 (some (some "z", some "hi")) = .ok stA [] :=
  private_no_match_dropped stA 1 "z" (some "hi") (by decide)

/-- C7 counterexample: a payload that is not an object at all (JS
null/undefined, modelled as `none`) makes the parameter destructuring of
`message:private`, `message:group`, `typing:start` and `typing:stop` throw
BEFORE the handler body's try block, so the exception is NOT caught at the
handler boundary — refuting the claim that every malformed payload's
exception is caught there. -/
theorem nullish_payload_escapes_uncaught :
    privateMessage stA 1 none = .uncaughtError stA ∧
    groupMessage stA 1 none = .uncaughtError stA ∧
    typingStart stA 1 none = .uncaughtError stA ∧
    typingStop stA 1 none = .uncaughtError stA :=
  ⟨rfl, rfl, rfl, rfl⟩

/-- C7 amended: for every inbound `message:private`, `message:group`,
`typing:start` or `typing:stop` whose payload IS an object — including one
missing every expected field — no exception escapes the handler (anything
raised in the body, such as the scan hitting a nullish registered identity,
is caught and logged), the connection is not dropped, and the entire server
state (registry, rooms, tokens, connections) is unchanged. -/
theorem object_payload_handlers_caught (s : ServerState) (sid : SocketId)
    (a b : Option String) :
    (∃ sent, privateMessage s sid (some (a, b)) = .ok s sent) ∧
    (∃ sent, groupMessage s sid (some (a, b)) = .ok s sent) ∧
    (∃ sent, typingStart s sid (some (a, b)) = .ok s sent) ∧
    (∃ sent, typingStop s sid (some (a, b)) = .ok s sent) := by
  refine ⟨?_, ⟨_, rfl⟩, ⟨_, rfl⟩, ⟨_, rfl⟩⟩
  cases h : findRecipient s.activeUsers a with
  | error e => exact ⟨[], by simp [privateMessage, h]⟩
  | ok o =>
    cases o with
    | none => exact ⟨[], by simp [privateMessage, h]⟩
    | some r =>
      exact ⟨if r ∈ s.connected then
          [(r, .messageReceive (mapGet s.activeUsers sid) b none)] else [],
        by simp [privateMessage, h]⟩

/-- C8: a sender that never issued `user:join` has no registry entry, yet
its private and group messages are still delivered, with the `from` field
undefined (`activeUsers.get(socket.id)` yields nothing and delivery
proceeds). -/
theorem unjoined_sender_delivers_from_undefined (s : ServerState)
    (sid r : SocketId) (tgt msg chatId : Option String)
    (hno : mapGet s.activeUsers sid = none)
    (hfind : findRecipient s.activeUsers tgt = .ok (some r))
    (hconn : r ∈ s.connected) :
    privateMessage s sid (some (tgt, msg)) =
      .ok s [(r, .messageReceive none msg none)] ∧
    groupMessage s sid (some (chatId, msg)) =
      .ok s (fanOut s sid chatId (.messageReceive none msg (some chatId))) := by
  constructor
  · simp [privateMessage, hfind, hconn, hno]
  · simp [groupMessage, hno]

/-- Witness for C8 at `stA`: socket 3 is connected but never joined; its
private message to uid `a` is delivered to connection 1 with `from`
undefined, and its group message to room `r` fans out with `from`
undefined. -/
theorem unjoined_sender_delivers_witness :
    privateMessage stA 3 (some (some "a", some "hi")) =
      .ok stA [(1, .messageReceive none (some "hi") none)] ∧
    groupMessage stA 3 (some (some "r", some "hi")) =
      .ok stA (fanOut stA 3 (some "r")
        (.messageReceive none (some "hi") (some (some "r")))) :=
  unjoined_sender_delivers_from_undefined stA 3 1 (some "a") (some "hi")
    (some "r") (by decide) rfl (by decide)

/-- C9: `typing:update` carries the client-supplied `user` field verbatim
(`isTyping` true for start, false for stop) and its deliveries are
independent of the registry: two states with the same rooms produce the same
deliveries whatever their `activeUsers`; no registry-based anti-spoofing
lookup is applied. -/
theorem typing_user_verbatim (s s₂ : ServerState) (sid : SocketId)
    (chatId user : Option String) (hrooms : s.rooms = s₂.rooms) :
    (∀ d ∈ (typingStart s sid (some (chatId, user))).sentOf,
      d.2 = .typingUpdate user true) ∧
    (∀ d ∈ (typingStop s sid (some (chatId, user))).sentOf,
      d.2 = .typingUpdate user false) ∧
    (typingStart s sid (some (chatId, user))).sentOf =
      (typingStart s₂ sid (some (chatId, user))).sentOf ∧
    (typingStop s sid (some (chatId, user))).sentOf =
      (typingStop s₂ sid (some (chatId, user))).sentOf := by
  have hm : roomMembers s chatId = roomMembers s₂ chatId := by
    simp [roomMembers, hrooms]
  refine ⟨?_, ?_, ?_, ?_⟩
  · intro d hd
    simp only [typingStart, HandlerResult.sentOf, fanOut, List.mem_map] at hd
    obtain ⟨t, _, rfl⟩ := hd
    rfl
  · intro d hd
    simp only [typingStop, HandlerResult.sentOf, fanOut, List.mem_map] at hd
    obtain ⟨t, _, rfl⟩ := hd
    rfl
  · simp [typingStart, HandlerResult.sentOf, fanOut, hm]
  · simp [typingStop, HandlerResult.sentOf, fanOut, hm]

/-- Witness for C9: `stA` and a registry-free variant of it share rooms;
typing events from socket 2 produce identical deliveries in both. -/
theorem typing_user_verbatim_witness :
    (∀ d ∈ (typingStart stA 2 (some (some "r", some "Zed"))).sentOf,
      d.2 = .typingUpdate (some "Zed") true) ∧
    (∀ d ∈ (typingStop stA 2 (some (some "r", some "Zed"))).sentOf,
      d.2 = .typingUpdate (some "Zed") false) ∧
    (typingStart stA 2 (some (some "r", some "Zed"))).sentOf =
      (typingStart { stA with activeUsers := [] } 2
        (some (some "r", some "Zed"))).sentOf ∧
    (typingStop stA 2 (some (some "r", some "Zed"))).sentOf =
      (typingStop { stA with activeUsers := [] } 2
        (some (some "r", some "Zed"))).sentOf :=
  typing_user_verbatim stA { stA with activeUsers := [] } 2 (some "r")
    (some "Zed") rfl

/-! ### Lemmas for the presence snapshot invariant -/

theorem runReg_append (tr : List Ev) (e : Ev) :
    runReg (tr ++ [e]) = applyEv (runReg tr) e := by
  simp [runReg, List.foldl_append]

theorem noJoinAfterDisc_append (tr : List Ev) (e : Ev)
    (h : noJoinAfterDisc (tr ++ [e]) = true) : noJoinAfterDisc tr = true := by
  induction tr with
  | nil => rfl
  | cons x tr ih =>
    cases x with
    | join s u =>
      simp only [List.cons_append, noJoinAfterDisc] at h ⊢
      exact ih h
    | disc d =>
      simp only [List.cons_append, noJoinAfterDisc, Bool.and_eq_true,
        Bool.not_eq_true', List.append_eq] at h ⊢
      rw [List.any_append, Bool.or_eq_false_iff] at h
      exact ⟨h.1.1, ih h.2⟩

theorem noJoinAfterDisc_snoc_join (tr : List Ev) (j : SocketId) (u : JsUser)
    (h : noJoinAfterDisc (tr ++ [.join j u]) = true) : hasDisc tr j = false := by
  induction tr with
  | nil => rfl
  | cons x tr ih =>
    cases x with
    | join s u' =>
      simp only [List.cons_append, noJoinAfterDisc] at h
      simpa [hasDisc] using ih h
    | disc d =>
      simp only [List.cons_append, noJoinAfterDisc, Bool.and_eq_true,
        Bool.not_eq_true', List.append_eq] at h
      rw [List.any_append, Bool.or_eq_false_iff] at h
      have hdj := h.1.2
      simp only [List.any_cons, List.any_nil, Bool.or_false,
        decide_eq_false_iff_not] at hdj
      have hne : d ≠ j := fun hh => hdj hh.symm
      simpa [hasDisc, List.any_cons, hne] using ih h.2

theorem joinSids_snoc_join (tr : List Ev) (j : SocketId) (u : JsUser) :
    joinSids (tr ++ [.join j u]) = joinSids tr ++ [j] := by
  simp [joinSids, List.filterMap_append]

theorem joinSids_snoc_disc (tr : List Ev) (d : SocketId) :
    joinSids (tr ++ [.disc d]) = joinSids tr := by
  simp [joinSids, List.filterMap_append]

theorem hasDisc_snoc_join (tr : List Ev) (j x : SocketId) (u : JsUser) :
    hasDisc (tr ++ [.join j u]) x = hasDisc tr x := by
  simp [hasDisc, List.any_append]

theorem hasDisc_snoc_disc (tr : List Ev) (d x : SocketId) :
    hasDisc (tr ++ [.disc d]) x = (hasDisc tr x || decide (d = x)) := by
  simp [hasDisc, List.any_append]

theorem lastJoin_snoc_join (tr : List Ev) (j x : SocketId) (u : JsUser) :
    lastJoin (tr ++ [.join j u]) x =
      if j = x then some u else lastJoin tr x := by
  simp [lastJoin, List.foldl_append]

theorem lastJoin_snoc_disc (tr : List Ev) (d x : SocketId) :
    lastJoin (tr ++ [.disc d]) x = lastJoin tr x := by
  simp [lastJoin, List.foldl_append]

theorem mem_dedupFirst {l : List SocketId} {a : SocketId} :
    a ∈ dedupFirst l ↔ a ∈ l := by
  induction l with
  | nil => simp [dedupFirst]
  | cons b l ih =>
    by_cases hab : a = b
    · subst hab; simp [dedupFirst]
    · simp [dedupFirst, List.mem_filter, hab, ih]

theorem dedupFirst_nodup (l : List SocketId) : (dedupFirst l).Nodup := by
  induction l with
  | nil => simp [dedupFirst]
  | cons b l ih =>
    simp only [dedupFirst, List.nodup_cons]
    refine ⟨fun hmem => ?_, ih.filter _⟩
    simp [List.mem_filter] at hmem

theorem dedupFirst_snoc (l : List SocketId) (a : SocketId) :
    dedupFirst (l ++ [a]) =
      if a ∈ l then dedupFirst l else dedupFirst l ++ [a] := by
  induction l with
  | nil => simp [dedupFirst]
  | cons b l ih =>
    by_cases hal : a ∈ l
    · rw [List.cons_append]
      simp only [dedupFirst, ih, if_pos hal]
      simp [List.mem_cons, hal]
    · by_cases hab : a = b
      · subst hab
        rw [List.cons_append]
        simp only [dedupFirst, ih, if_neg hal, List.filter_append]
        simp [List.mem_cons]
      · rw [List.cons_append]
        simp only [dedupFirst, ih, if_neg hal, List.filter_append]
        have : a ∉ (b :: l) := by
          simp [List.mem_cons, hab, hal]
        rw [if_neg this]
        simp [dedupFirst, hab]

theorem joinSids_cons_join (s : SocketId) (u : JsUser) (tr : List Ev) :
    joinSids (.join s u :: tr) = s :: joinSids tr := by
  simp [joinSids]

theorem joinSids_cons_disc (d : SocketId) (tr : List Ev) :
    joinSids (.disc d :: tr) = joinSids tr := by
  simp [joinSids]

theorem lastJoinAux_isSome (tr : List Ev) (x : SocketId) :
    ∀ acc : Option JsUser, acc.isSome = true →
      (tr.foldl (fun acc e => match e with
        | .join s u => if s = x then some u else acc
        | .disc _ => acc) acc).isSome = true := by
  induction tr with
  | nil => intro acc h; exact h
  | cons e tr ih =>
    intro acc h
    cases e with
    | join s u =>
      simp only [List.foldl_cons]
      by_cases hs : s = x
      · exact ih _ (by simp [hs])
      · exact ih _ (by simp [hs, h])
    | disc d => exact ih _ h

theorem lastJoin_isSome (tr : List Ev) (x : SocketId) (h : x ∈ joinSids tr) :
    (lastJoin tr x).isSome = true := by
  induction tr with
  | nil => simp [joinSids] at h
  | cons e tr ih =>
    cases e with
    | join s u =>
      by_cases hs : s = x
      · simp only [lastJoin, List.foldl_cons, if_pos hs]
        exact lastJoinAux_isSome tr x (some u) rfl
      · have hx : x ∈ joinSids tr := by
          rw [joinSids_cons_join] at h
          exact (List.mem_cons.mp h).resolve_left (fun hh => hs hh.symm)
        simpa [lastJoin, List.foldl_cons, hs] using ih hx
    | disc d =>
      have hx : x ∈ joinSids tr := by rw [joinSids_cons_disc] at h; exact h
      simpa [lastJoin, List.foldl_cons] using ih hx

theorem entryFor_key (tr : List Ev) (x : SocketId) (p : SocketId × JsUser)
    (h : entryFor tr x = some p) : p.1 = x := by
  unfold entryFor at h
  split at h
  · cases h
  · cases hl : lastJoin tr x with
    | none => rw [hl] at h; cases h
    | some w => rw [hl] at h; cases h; rfl

theorem entryFor_snoc_disc (tr : List Ev) (d x : SocketId) :
    entryFor (tr ++ [.disc d]) x = if x = d then none else entryFor tr x := by
  by_cases hxd : x = d
  · subst hxd
    simp [entryFor, hasDisc_snoc_disc]
  · have hdx : d ≠ x := fun hh => hxd hh.symm
    simp [entryFor, hasDisc_snoc_disc, lastJoin_snoc_disc, hdx, hxd]

theorem entryFor_snoc_join (tr : List Ev) (j x : SocketId) (u : JsUser)
    (hnd : hasDisc tr j = false) :
    entryFor (tr ++ [.join j u]) x =
      if x = j then some (j, u) else entryFor tr x := by
  by_cases hxj : x = j
  · subst hxj
    simp [entryFor, hasDisc_snoc_join, hnd, lastJoin_snoc_join]
  · have hjx : j ≠ x := fun hh => hxj hh.symm
    simp [entryFor, hasDisc_snoc_join, lastJoin_snoc_join, hjx, hxj]

theorem filterMap_keys {f : SocketId → Option (SocketId × JsUser)}
    (hf : ∀ x p, f x = some p → p.1 = x) {l : List SocketId}
    {p : SocketId × JsUser} (hp : p ∈ l.filterMap f) : p.1 ∈ l := by
  rcases List.mem_filterMap.mp hp with ⟨x, hx, hfx⟩
  rw [hf x p hfx]
  exact hx

theorem mapSet_append_fresh {K V : Type} [DecidableEq K]
    (m : List (K × V)) (j : K) (u : V) (h : ∀ p ∈ m, p.1 ≠ j) :
    mapSet m j u = m ++ [(j, u)] := by
  induction m with
  | nil => rfl
  | cons p m ih =>
    simp only [mapSet, if_neg (h p (List.mem_cons_self _ _)), List.cons_append]
    rw [ih (fun q hq => h q (List.mem_cons_of_mem _ hq))]

theorem filterMap_entry_erase (l : List SocketId) (d : SocketId)
    (f g : SocketId → Option (SocketId × JsUser))
    (hfk : ∀ x p, f x = some p → p.1 = x)
    (hg : ∀ x, g x = if x = d then none else f x) :
    l.filterMap g = mapDelete (l.filterMap f) d := by
  induction l with
  | nil => rfl
  | cons x l ih =>
    by_cases hxd : x = d
    · subst hxd
      cases hfx : f x with
      | none =>
        simp only [List.filterMap_cons, hg x, if_pos rfl, hfx]
        exact ih
      | some p =>
        have hpx : p.1 = x := hfk _ _ hfx
        simp only [List.filterMap_cons, hg x, if_pos rfl, hfx]
        simp only [mapDelete, if_pos hpx]
        exact ih
    · cases hfx : f x with
      | none =>
        simp only [List.filterMap_cons, hg x, if_neg hxd, hfx]
        exact ih
      | some p =>
        have hpx : p.1 = x := hfk _ _ hfx
        have hpd : ¬ p.1 = d := by rw [hpx]; exact hxd
        simp only [List.filterMap_cons, hg x, if_neg hxd, hfx]
        simp only [mapDelete, if_neg hpd]
        rw [ih]

theorem filterMap_entry_update (l : List SocketId) (hnd : l.Nodup)
    (j : SocketId) (hj : j ∈ l) (f g : SocketId → Option (SocketId × JsUser))
    (u w : JsUser) (hfj : f j = some (j, w))
    (hfk : ∀ x p, f x = some p → p.1 = x)
    (hg : ∀ x, x ≠ j → g x = f x) (hgj : g j = some (j, u)) :
    l.filterMap g = mapSet (l.filterMap f) j u := by
  induction l with
  | nil => cases hj
  | cons x l ih =>
    rcases List.nodup_cons.mp hnd with ⟨hxl, hnd'⟩
    by_cases hxj : x = j
    · subst hxj
      have hgf : l.filterMap g = l.filterMap f :=
        (List.filterMap_congr
          (fun a ha => (hg a (fun haj => hxl (haj ▸ ha))).symm)).symm
      rw [List.filterMap_cons, List.filterMap_cons, hgj, hfj, hgf]
      simp [mapSet]
    · have hjl : j ∈ l :=
        (List.mem_cons.mp hj).resolve_left (fun hh => hxj hh.symm)
      rw [List.filterMap_cons, List.filterMap_cons, hg x hxj]
      cases hfx : f x with
      | none => exact ih hnd' hjl
      | some p =>
        have hpx : p.1 = x := hfk _ _ hfx
        have hpj : ¬ p.1 = j := by rw [hpx]; exact hxj
        simp only [mapSet, if_neg hpj]
        rw [ih hnd' hjl]

/-- C5: after any realizable sequence of `user:join` and disconnect events
(each disconnect matched by a prior join of the same connection, and no
connection reused after its disconnect), the registry broadcast as
`users:active` equals the spec-side view: exactly the connections still
joined, in original join order, each with the identity of its last join,
duplicates across connections included. -/
theorem presence_snapshot (tr : List Ev)
    (hwf : noJoinAfterDisc tr = true) (hmd : matchedDiscs tr = true) :
    runReg tr = refRegistry tr ∧
    mapValues (runReg tr) = mapValues (refRegistry tr) := by
  suffices h : runReg tr = refRegistry tr from ⟨h, by rw [h]⟩
  clear hmd
  induction tr using List.reverseRecOn with
  | nil => rfl
  | append_singleton tr e ih =>
    have hwf' : noJoinAfterDisc tr = true := noJoinAfterDisc_append tr e hwf
    rw [runReg_append, ih hwf']
    cases e with
    | disc d =>
      show mapDelete (refRegistry tr) d = refRegistry (tr ++ [.disc d])
      simp only [refRegistry, joinSids_snoc_disc]
      exact (filterMap_entry_erase _ d (entryFor tr)
        (entryFor (tr ++ [.disc d])) (entryFor_key tr)
        (entryFor_snoc_disc tr d)).symm
    | join j u =>
      have hndj : hasDisc tr j = false := noJoinAfterDisc_snoc_join tr j u hwf
      show mapSet (refRegistry tr) j u = refRegistry (tr ++ [.join j u])
      simp only [refRegistry, joinSids_snoc_join, dedupFirst_snoc]
      by_cases hjmem : j ∈ joinSids tr
      · rw [if_pos hjmem]
        obtain ⟨w, hw⟩ :=
          Option.isSome_iff_exists.mp (lastJoin_isSome tr j hjmem)
        have hfj : entryFor tr j = some (j, w) := by
          simp [entryFor, hndj, hw]
        exact (filterMap_entry_update _ (dedupFirst_nodup _) j
          (mem_dedupFirst.mpr hjmem) (entryFor tr)
          (entryFor (tr ++ [.join j u])) u w hfj (entryFor_key tr)
          (fun x hx => by rw [entryFor_snoc_join tr j x u hndj, if_neg hx])
          (by rw [entryFor_snoc_join tr j j u hndj, if_pos rfl])).symm
      · rw [if_neg hjmem, List.filterMap_append]
        have h1 : (dedupFirst (joinSids tr)).filterMap
            (entryFor (tr ++ [.join j u])) =
            (dedupFirst (joinSids tr)).filterMap (entryFor tr) := by
          apply List.filterMap_congr
          intro x hx
          have hxj : x ≠ j := fun hh => hjmem (hh ▸ mem_dedupFirst.mp hx)
          rw [entryFor_snoc_join tr j x u hndj, if_neg hxj]
        have h2 : [j].filterMap (entryFor (tr ++ [.join j u])) = [(j, u)] := by
          simp [entryFor_snoc_join tr j j u hndj]
        rw [h1, h2]
        apply mapSet_append_fresh
        intro p hp
        have hk := filterMap_keys (entryFor_key tr) hp
        exact fun hpj => hjmem (hpj ▸ mem_dedupFirst.mp hk)

/-- Witness trace for C5: joins of connections 1, 2, 3, a disconnect of 2,
and a re-announcement by 1; the snapshot is exactly the surviving
connections 1 and 3 in original join order, with 1's latest identity. -/
def wTrace : List Ev :=
  [.join 1 (.jobj (some "a") none), .join 2 (.jobj (some "b") none),
   .disc 2, .join 3 (.jobj (some "c") none), .join 1 (.jobj (some "a2") none)]

/-- Witness for C5 at `wTrace`. -/
theorem presence_snapshot_witness :
    (noJoinAfterDisc wTrace = true ∧ matchedDiscs wTrace = true) ∧
    (runReg wTrace = refRegistry wTrace ∧
      mapValues (runReg wTrace) = mapValues (refRegistry wTrace)) :=
  ⟨⟨by decide, by decide⟩, presence_snapshot wTrace (by decide) (by decide)⟩

/-- C10: the disconnect handler deletes only the disconnecting socket's
`activeUsers` entry — `userTokens`, rooms and the connected list are
untouched — so a token saved via /api/save-token persists after that user's
connection disconnects. -/
theorem disconnect_mutates_only_registry (s : ServerState) (sid : SocketId)
    (userId token : Option String) :
    (disconnectHandler s sid).1.userTokens = s.userTokens ∧
    (disconnectHandler s sid).1.rooms = s.rooms ∧
    (disconnectHandler s sid).1.connected = s.connected ∧
    (disconnectHandler s sid).1.activeUsers = mapDelete s.activeUsers sid ∧
    mapGet (disconnectHandler (saveToken s userId token) sid).1.userTokens
      userId = some token := by
  refine ⟨rfl, rfl, rfl, rfl, ?_⟩
  simp [disconnectHandler, saveToken, mapGet_mapSet]

end Koexist
